import Mathlib

/-!
Verification development for the semantic compatibility engine of
`backend/app/services/semantic_service.py`.

The Python code is shallowly embedded: floats are modelled as rationals,
Python lists as `List`, Python sets as duplicate-free lists with membership
semantics, exceptions as `Except`, and the (possibly non-terminating) chunking
loop as a fuel-indexed function returning `Option`.  Strings are modelled over
their ASCII fragment: Python's `\s`, `\w`, `str.lower`, `str.strip` are
interpreted on ASCII characters, which is the fragment all claims exercise.
-/

/-- Whitespace characters recognised by Python's `str.split`, `str.strip` and
the regex class `\s` (ASCII fragment). -/
def isPyWs (c : Char) : Bool :=
  c = ' ' || c = '\t' || c = '\n' || c = '\r' || c = '\x0b' || c = '\x0c'

/-- ASCII alphabetic character. -/
def isAsciiAlpha (c : Char) : Bool :=
  ('a' ≤ c && c ≤ 'z') || ('A' ≤ c && c ≤ 'Z')

/-- ASCII digit. -/
def isAsciiDigit (c : Char) : Bool := '0' ≤ c && c ≤ '9'

/-- Word characters of the regex class `\w` (ASCII fragment):
letters, digits and underscore. -/
def isWordChar (c : Char) : Bool := isAsciiAlpha c || isAsciiDigit c || c = '_'

/-- Python's `str.strip()` on a character list: drop leading and trailing
whitespace. -/
def stripWs (l : List Char) : List Char :=
  ((l.dropWhile isPyWs).reverse.dropWhile isPyWs).reverse

/-- Effect of `re.sub(r'\s+', ' ', ·)`: every maximal run of whitespace
becomes a single space. -/
def collapseWs : List Char → List Char
  | [] => []
  | [c] => if isPyWs c then [' '] else [c]
  | c₁ :: c₂ :: rest =>
    if isPyWs c₁ && isPyWs c₂ then collapseWs (c₂ :: rest)
    else (if isPyWs c₁ then ' ' else c₁) :: collapseWs (c₂ :: rest)

/-- Python's `str.lower()` (ASCII fragment, matching `Char.toLower`). -/
def lowerStr (l : List Char) : List Char := l.map Char.toLower

/-- Strict lexicographic comparison of character lists by code point; this is
exactly how Python compares strings. -/
def lexLt : List Char → List Char → Bool
  | [], [] => false
  | [], _ :: _ => true
  | _ :: _, [] => false
  | a :: as, b :: bs => if a = b then lexLt as bs else decide (a < b)

/-- Non-strict version of `lexLt`, used to model Python's ascending `sorted`. -/
def lexLe (a b : List Char) : Bool := !(lexLt b a)

/-- Insert an element into a list, before the first element `y` with
`le x y = true`.  Helper for `sortByB`. -/
def insertLe {α : Type} (le : α → α → Bool) (x : α) : List α → List α
  | [] => [x]
  | y :: ys => if le x y then x :: y :: ys else y :: insertLe le x ys

/-- Insertion sort with a boolean comparator; models Python's `sorted`.
(`sorted` is a permutation of its input, which is all the claims use besides
evaluation on concrete inputs.) -/
def sortByB {α : Type} (le : α → α → Bool) : List α → List α
  | [] => []
  | x :: xs => insertLe le x (sortByB le xs)

/-- Deduplication keeping the first occurrence; models the contents of a
Python `set` built by iterating a list (membership semantics). -/
def dedupFirst : List String → List String → List String
  | [], _ => []
  | w :: ws, seen =>
    if seen.contains w then dedupFirst ws seen
    else w :: dedupFirst ws (w :: seen)

/-- Python's substring test `needle in hay` on character lists: `needle`
occurs contiguously in `hay`. -/
def containsSub (needle hay : List Char) : Bool :=
  (List.range (hay.length + 1)).any fun i => needle.isPrefixOf (hay.drop i)

/-- Python's `needle in hay` on strings. -/
def strContains (hay needle : String) : Bool := containsSub needle.data hay.data

/-- Splitter for Python's `str.split()` (no separator argument): maximal runs
of non-whitespace, empties discarded.  `cur` accumulates the current run in
reverse. -/
def pySplitAux : List Char → List Char → List (List Char)
  | [], cur => if cur.isEmpty then [] else [cur.reverse]
  | c :: cs, cur =>
    if isPyWs c then
      if cur.isEmpty then pySplitAux cs [] else cur.reverse :: pySplitAux cs []
    else pySplitAux cs (c :: cur)

/-- Python's `text.split()`. -/
def pySplit (s : String) : List String := (pySplitAux s.data []).map String.mk

/-- Maximal runs of characters satisfying `p`; everything else is a
separator.  Helper for the regex word extraction of the fallback path. -/
def runsAux (p : Char → Bool) : List Char → List Char → List (List Char)
  | [], cur => if cur.isEmpty then [] else [cur.reverse]
  | c :: cs, cur =>
    if p c then runsAux p cs (c :: cur)
    else if cur.isEmpty then runsAux p cs [] else cur.reverse :: runsAux p cs []

/-- Last index of `c` in `l`; models Python's `str.rfind` (which returns `-1`,
modelled as `none`, when absent). -/
def lastIdxOf (c : Char) (l : List Char) : Option Nat :=
  (List.range l.length).foldl
    (fun acc i => if l.getD i ' ' = c then some i else acc) none

/- ------------------------------------------------------------------ -/
/- `EmbeddingGenerator._preprocess_text` (semantic_service.py:43-66)   -/
/- ------------------------------------------------------------------ -/

/-- `EmbeddingGenerator._preprocess_text`: collapse whitespace and strip ends,
replace characters outside `[\w\s\-\.\,\;\:\!\?]` by a space, truncate to 2000
characters preferring a sentence boundary in the trailing 20%, lowercase. -/
def preprocess_text (text : String) : String :=
  let t := collapseWs (stripWs text.data)
  let t := t.map fun c =>
    if isWordChar c || isPyWs c || c = '-' || c = '.' || c = ',' || c = ';' ||
       c = ':' || c = '!' || c = '?' then c else ' '
  let t :=
    if 2000 < t.length then
      let truncated := t.take 2000
      match lastIdxOf '.' truncated with
      | some i => if 1600 < i then truncated.take (i + 1) else truncated
      | none => truncated
    else t
  String.mk (lowerStr t)

/- ------------------------------------------------------------------ -/
/- `EmbeddingGenerator._chunk_text` (semantic_service.py:68-88)        -/
/- ------------------------------------------------------------------ -/

/-- Body of the `while start < len(words)` loop of `_chunk_text`, with
`max_chunk_length = 512` and `chunk_overlap = 50` inlined from the
constructor.  One fuel unit is spent per iteration; `none` means the loop was
still running when the fuel ran out (for every fuel, as proved below, on any
input that enters the loop). -/
def chunk_text_loop (words : List String) : Nat → Nat → List String → Option (List String)
  | 0, _, _ => none
  | fuel + 1, start, chunks =>
    if start < words.length then
      let e := min (start + 512) words.length
      let chunk := String.intercalate " " ((words.drop start).take (e - start))
      let chunks' := chunks ++ [chunk]
      let start' := e - 50
      if words.length ≤ start' then some chunks'
      else chunk_text_loop words fuel start' chunks'
    else some chunks

/-- `EmbeddingGenerator._chunk_text`: texts of at most 512 words are returned
as a single chunk; longer texts enter the sliding-window loop. -/
def chunk_text (fuel : Nat) (text : String) : Option (List String) :=
  let words := pySplit text
  if words.length ≤ 512 then some [text]
  else chunk_text_loop words fuel 0 []

/- ------------------------------------------------------------------ -/
/- `EmbeddingGenerator.generate_embedding` (semantic_service.py:90-158) -/
/- ------------------------------------------------------------------ -/

/-- The exception type `SemanticAnalysisError`.  Modelled from the spec: the
class lives in `app.core.exceptions`, which is not under `src/`; the spec and
the raising sites show it carries a message string, and Python's `str(e)`
returns that message. -/
structure SemanticAnalysisError where
  msg : String
deriving DecidableEq

/-- The embedding cache `_embedding_cache`: a mapping from cache keys to
embedding vectors, modelled as an association list whose most recent insert
wins. -/
abbrev EmbCache := List (String × List ℚ)

/-- `EmbeddingGenerator._get_cache_key`: `hashlib.md5(text).hexdigest()`.
The md5 hex digest is a deterministic function of the text; it is modelled as
the text itself (hash collisions are not modelled), so equal preprocessed
texts get equal keys. -/
def get_cache_key (text : String) : String := text

/-- Dictionary lookup in the embedding cache. -/
def lookupCache : EmbCache → String → Option (List ℚ)
  | [], _ => none
  | (k, v) :: rest, key => if k = key then some v else lookupCache rest key

/-- Sum of squares of a vector's components. -/
def sum_sq (v : List ℚ) : ℚ := (v.map fun x => x * x).sum

/-- Stand-in for `np.linalg.norm(v)` (the Euclidean norm `√(Σ vᵢ²)`).  The
square root of a rational is irrational in general; the development only ever
observes whether the norm is zero, and `√(Σ vᵢ²) = 0 ↔ Σ vᵢ² = 0`, so the
squared norm represents it.  Division by a zero norm is total in `ℚ`
(`x / 0 = 0`), mirroring numpy's non-raising float division (`0.0/0.0` is
`nan`, not an exception). -/
def norm_of (v : List ℚ) : ℚ := sum_sq v

/-- Componentwise arithmetic mean `np.mean(vs, axis=0)` of equally long
vectors. -/
def vec_mean (vs : List (List ℚ)) : List ℚ :=
  match vs with
  | [] => []
  | v₀ :: _ =>
    (List.range v₀.length).map fun i =>
      ((vs.map fun v => v.getD i 0).sum) / (vs.length : ℚ)

/-- Encode every chunk with the model, propagating the first failure; models
the sequential `for` loop over chunks. -/
def encodeChunks (model : String → Except SemanticAnalysisError (List ℚ)) :
    List String → Except SemanticAnalysisError (List (List ℚ))
  | [] => .ok []
  | c :: cs => do
    let e ← model c
    let es ← encodeChunks model cs
    pure (e :: es)

/-- `EmbeddingGenerator.generate_embedding`.  The sentence-transformer model
(`_get_model` + `model.encode`) is the external collaborator, passed in as
`model`; a `.error` result of `model` stands for any exception raised while
loading or encoding, which the method's `except` clause wraps with the prefix
`"Embedding generation failed: "`.  The outer `Option` is the fuel of the
chunking loop: `none` means the call never returns (the loop is still
running).  The `Bool` in the result records whether the model was invoked
(`False` on a cache hit).  Note the normalization at line 144 divides by the
norm unconditionally — there is no zero-norm branch. -/
def generate_embedding (model : String → Except SemanticAnalysisError (List ℚ))
    (cache : EmbCache) (fuel : Nat) (text : String) :
    Option (Except SemanticAnalysisError (List ℚ × EmbCache × Bool)) :=
  let processed := preprocess_text text
  let key := get_cache_key processed
  match lookupCache cache key with
  | some v => some (.ok (v, cache, false))
  | none =>
    match chunk_text fuel processed with
    | none => none
    | some chunks =>
      let embRes : Except SemanticAnalysisError (List ℚ) :=
        if chunks.length = 1 then model processed
        else
          match encodeChunks model chunks with
          | .error e => .error e
          | .ok es => .ok (vec_mean es)
      match embRes with
      | .error e => some (.error ⟨"Embedding generation failed: " ++ e.msg⟩)
      | .ok emb =>
        let normalized := emb.map fun x => x / norm_of emb
        some (.ok (normalized, (key, normalized) :: cache, true))

/- ------------------------------------------------------------------ -/
/- `SimilarityCalculator` (semantic_service.py:173-297)                -/
/- ------------------------------------------------------------------ -/

/-- The dictionary returned by `SimilarityCalculator.interpret_similarity`. -/
structure SimInterp where
  percentage : ℚ
  confidence : String
  match_quality : String
  description : String
  raw_similarity : ℚ
deriving DecidableEq

/-- `SimilarityCalculator.normalize_to_percentage`: map `(-1, 1)` to
`(0, 100)` and clip (`np.clip(x, 0.0, 100.0) = min (max x 0) 100`). -/
def normalize_to_percentage (similarity : ℚ) : ℚ :=
  min (max ((similarity + 1) / 2 * 100) 0) 100

/-- `SimilarityCalculator.get_confidence_level`, with the constructor's
thresholds `min_confidence_threshold = 0.1` and
`high_confidence_threshold = 0.7`. -/
def get_confidence_level (similarity : ℚ) : String :=
  if 7/10 ≤ |similarity| then "high"
  else if 1/10 ≤ |similarity| then "medium"
  else "low"

/-- `SimilarityCalculator.interpret_similarity`. -/
def interpret_similarity (similarity : ℚ) : SimInterp :=
  let percentage := normalize_to_percentage similarity
  let confidence := get_confidence_level similarity
  if 80 ≤ percentage then
    ⟨percentage, confidence, "excellent", "Very strong semantic match", similarity⟩
  else if 60 ≤ percentage then
    ⟨percentage, confidence, "good", "Good semantic alignment", similarity⟩
  else if 40 ≤ percentage then
    ⟨percentage, confidence, "moderate", "Moderate semantic similarity", similarity⟩
  else if 20 ≤ percentage then
    ⟨percentage, confidence, "weak", "Limited semantic overlap", similarity⟩
  else
    ⟨percentage, confidence, "poor", "Minimal semantic similarity", similarity⟩

/- ------------------------------------------------------------------ -/
/- `KeywordAnalyzer` (semantic_service.py:340-624)                     -/
/- ------------------------------------------------------------------ -/

/-- `KeywordAnalyzer._normalize_keyword`: lowercase, strip, collapse
whitespace, then delete (not space-replace) characters outside
`[\w\s\-\.]`. -/
def normalize_keyword (keyword : String) : String :=
  let l := stripWs (lowerStr keyword.data)
  let l := collapseWs l
  let l := l.filter fun c => isWordChar c || isPyWs c || c = '-' || c = '.'
  String.mk l

/-- The generic stop words of `_fallback_keyword_extraction`. -/
def fallbackStopWords : List String :=
  ["the", "and", "for", "are", "but", "not", "you", "all", "can", "had",
   "her", "was", "one", "our", "out", "day", "get", "has", "him", "his",
   "how", "man", "new", "now", "old", "see", "two", "way", "who", "boy",
   "did", "its", "let", "put", "say", "she", "too", "use"]

/-- The words matched by `re.findall(r'\b[A-Za-z]{3,}\b', text)`: a maximal
run of word characters (`\w`) produces a match exactly when it consists
entirely of letters and has length at least 3 (runs adjacent to digits or
underscores have no word boundary next to the letters). -/
def regexAlphaWords (l : List Char) : List (List Char) :=
  (runsAux isWordChar l []).filter fun r => r.all isAsciiAlpha && 3 ≤ r.length

/-- `KeywordAnalyzer._fallback_keyword_extraction`: regex word extraction over
the lowercased text, stop-word filtering, first-seen deduplication, capped at
20 keywords (`min_keyword_length = 2`, `max_keyword_length = 50`). -/
def fallback_keyword_extraction (text : String) : List String :=
  let words := (regexAlphaWords (lowerStr text.data)).map String.mk
  let kept := words.filter fun w =>
    !(fallbackStopWords.contains w) && 2 ≤ w.length && w.length ≤ 50
  (dedupFirst kept []).take 20

/-- A spaCy token as observed by `_extract_noun_phrases`: its text, coarse
part-of-speech tag, and stop-word/punctuation flags. -/
structure SpacyTok where
  text : String
  pos : String
  is_stop : Bool
  is_punct : Bool

/-- A spaCy noun chunk as observed by `_extract_noun_phrases`: its text and
the properties of its root token. -/
structure SpacyChunk where
  text : String
  root_is_stop : Bool
  root_pos : String

/-- A spaCy named entity as observed by `_extract_noun_phrases`. -/
structure SpacyEnt where
  text : String
  label : String

/-- The result of running the spaCy pipeline on a text. -/
structure SpacyDoc where
  noun_chunks : List SpacyChunk
  ents : List SpacyEnt
  tokens : List SpacyTok

/-- `KeywordAnalyzer._extract_noun_phrases`.  The spaCy model is the external
collaborator: `nlp = none` is the fallback mode (model failed to load),
otherwise `nlp` maps the text to its parsed document.  Candidates come from
noun chunks (length-checked in `[2, 50]`), relevant named entities
(length-checked in `[2, 50]`), and individual noun/proper-noun/adjective
tokens (length-checked only from below); `list(set(...))` deduplicates. -/
def extract_noun_phrases (nlp : Option (String → SpacyDoc)) (text : String) :
    List String :=
  match nlp with
  | none => fallback_keyword_extraction text
  | some nlpF =>
    let doc := nlpF text
    let fromChunks := doc.noun_chunks.filterMap fun ch =>
      let normalized := normalize_keyword (String.mk (stripWs ch.text.data))
      if 2 ≤ normalized.length && normalized.length ≤ 50 && !ch.root_is_stop &&
         (ch.root_pos = "NOUN" || ch.root_pos = "PROPN") then
        some normalized
      else none
    let fromEnts := doc.ents.filterMap fun ent =>
      if ent.label = "ORG" || ent.label = "PRODUCT" || ent.label = "SKILL" ||
         ent.label = "TECH" then
        let normalized := normalize_keyword (String.mk (stripWs ent.text.data))
        if 2 ≤ normalized.length && normalized.length ≤ 50 then some normalized
        else none
      else none
    let fromToks := doc.tokens.filterMap fun tok =>
      if (tok.pos = "NOUN" || tok.pos = "PROPN" || tok.pos = "ADJ") &&
         !tok.is_stop && !tok.is_punct && 2 ≤ tok.text.length then
        let normalized := normalize_keyword tok.text
        if 2 ≤ normalized.length then some normalized else none
      else none
    dedupFirst (fromChunks ++ fromEnts ++ fromToks) []

/-- The `synonym_mappings` table of `KeywordAnalyzer.__init__`: canonical
keyword paired with its synonyms. -/
def synonym_mappings : List (String × List String) :=
  [("javascript", ["js", "ecmascript"]),
   ("python", ["py"]),
   ("artificial intelligence", ["ai", "machine learning", "ml"]),
   ("user interface", ["ui"]),
   ("user experience", ["ux"]),
   ("database", ["db", "databases"]),
   ("application programming interface", ["api", "apis"]),
   ("continuous integration", ["ci"]),
   ("continuous deployment", ["cd"]),
   ("software development", ["development", "dev"]),
   ("quality assurance", ["qa", "testing"]),
   ("project management", ["pm"]),
   ("customer relationship management", ["crm"]),
   ("enterprise resource planning", ["erp"])]

/-- All elements of a synonym group: the canonical keyword and its
synonyms. -/
def groupElems (p : String × List String) : List String := p.1 :: p.2

/-- The additions contributed by one keyword in the inner loop of
`_expand_with_synonyms`: for each table row, a canonical keyword contributes
its synonyms, a synonym contributes the canonical keyword and all sibling
synonyms. -/
def expandOne (kw : String) : List String :=
  synonym_mappings.foldl
    (fun acc p =>
      if kw = p.1 then acc ++ p.2
      else if p.2.contains kw then acc ++ (p.1 :: p.2)
      else acc)
    []

/-- `KeywordAnalyzer._expand_with_synonyms`: the returned list enumerates the
Python set `expanded`, i.e. the input keywords together with every addition
`expandOne` makes for a keyword of the input. -/
def expand_with_synonyms (keywords : List String) : List String :=
  dedupFirst (keywords ++ keywords.foldl (fun acc kw => acc ++ expandOne kw) []) []

/-- Comparator of `extract_keywords`' final `sorted(..., key=lambda x:
(-len(x), x))`: longer first, ties alphabetically. -/
def kwOrder (a b : String) : Bool :=
  (decide (b.length < a.length)) || (a.length == b.length && lexLe a.data b.data)

/-- `KeywordAnalyzer.extract_keywords`: noun-phrase extraction, synonym
expansion, then sort by descending length with alphabetical tie-break. -/
def extract_keywords (nlp : Option (String → SpacyDoc)) (text : String) :
    List String :=
  let keywords := extract_noun_phrases nlp text
  let expanded := expand_with_synonyms keywords
  sortByB kwOrder expanded

/-- The normalized set built by `match_keywords` from a keyword list
(`{self._normalize_keyword(kw) for kw in ...}`). -/
def normalized_set (kws : List String) : List String :=
  dedupFirst (kws.map normalize_keyword) []

/-- The exact matches of `match_keywords`:
`resume_set.intersection(job_set)`. -/
def exact_matches (resume_keywords job_keywords : List String) : List String :=
  (normalized_set resume_keywords).filter fun k =>
    (normalized_set job_keywords).contains k

/-- The fuzzy matches of `match_keywords`: job keywords not already matched
exactly for which some resume keyword is a substring of the job keyword or
vice versa and the job keyword is longer than 3 characters. -/
def fuzzy_matches (resume_keywords job_keywords : List String) : List String :=
  (normalized_set job_keywords).filter fun jk =>
    !((exact_matches resume_keywords job_keywords).contains jk) &&
    ((normalized_set resume_keywords).any fun rk =>
      strContains rk jk || strContains jk rk) &&
    decide (3 < jk.length)

/-- `KeywordAnalyzer.match_keywords`: normalize both lists into sets,
take exact then fuzzy matches, missing is the job set minus the matches,
and both results are returned alphabetically sorted. -/
def match_keywords (resume_keywords job_keywords : List String) :
    List String × List String :=
  let matched := exact_matches resume_keywords job_keywords ++
    fuzzy_matches resume_keywords job_keywords
  let missing := (normalized_set job_keywords).filter fun jk =>
    !(matched.contains jk)
  (sortByB (fun a b => lexLe a.data b.data) matched,
   sortByB (fun a b => lexLe a.data b.data) missing)

/-- Scanner for `count_occurrences`: advance over `hay`, counting a match and
skipping past it whenever `needle` is a prefix of the rest.  Structural
recursion on `fuel`; since every step consumes at least one character of
`hay`, any `fuel ≥ hay.length` computes the full count. -/
def countAux (needle : List Char) : List Char → Nat → Nat
  | _, 0 => 0
  | [], _ + 1 => 0
  | c :: rest, fuel + 1 =>
    if needle.isPrefixOf (c :: rest) then
      1 + countAux needle (rest.drop (needle.length - 1)) fuel
    else countAux needle rest fuel

/-- Number of non-overlapping occurrences of `needle` in `hay`, scanning left
to right; models Python's `str.count` (including `count('') = len + 1`). -/
def count_occurrences (needle hay : List Char) : Nat :=
  if needle.isEmpty then hay.length + 1
  else countAux needle hay hay.length

/-- Python's `hay.count(needle)` on strings. -/
def str_count (hay needle : String) : Nat := count_occurrences needle.data hay.data

/-- The sorting phase of `prioritize_missing_keywords`, abstracted over the
frequency table: `none` models the `except` branch (frequency counting
failed), which returns the input unchanged; `some f` sorts by descending
frequency with alphabetical tie-break. -/
def prioritize_with (freqs : Option (String → Nat)) (missing_keywords : List String) :
    List String :=
  match freqs with
  | none => missing_keywords
  | some f =>
    sortByB
      (fun a b => (decide (f b < f a)) || (f a == f b && lexLe a.data b.data))
      missing_keywords

/-- `KeywordAnalyzer.prioritize_missing_keywords`: count case-insensitive
occurrences of each keyword in the job text and sort by descending frequency,
ties alphabetically. -/
def prioritize_missing_keywords (missing_keywords : List String) (job_text : String) :
    List String :=
  prioritize_with
    (some fun kw =>
      count_occurrences (lowerStr kw.data) (lowerStr job_text.data))
    missing_keywords

/-- `KeywordAnalyzer.calculate_keyword_coverage`: percentage of job keywords
matched, `0.0` for an empty job-keyword list, capped at `100.0`. -/
def calculate_keyword_coverage (matched_keywords total_job_keywords : List String) : ℚ :=
  if total_job_keywords.isEmpty then 0
  else min (((matched_keywords.length : ℚ) / (total_job_keywords.length : ℚ)) * 100) 100

/- ------------------------------------------------------------------ -/
/- `SemanticService.analyze_compatibility` (semantic_service.py:638-717) -/
/- ------------------------------------------------------------------ -/

/-- The analysis result entity.  Modelled from the spec: the class
`CompatibilityAnalysis` lives in `app.models.entities`, which is not under
`src/`; §3 of the spec lists exactly these fields. -/
structure CompatibilityAnalysis where
  match_score : ℚ
  matched_keywords : List String
  missing_keywords : List String
  semantic_similarity : ℚ
  keyword_coverage : ℚ
deriving DecidableEq

/-- The body of `analyze_compatibility`'s `try` block.  Each component call
is abstracted by its outcome: the two embeddings (the first failure of
`asyncio.gather` propagates), the similarity metrics
(`calculate_similarity_with_metrics`), the two keyword extractions, and the
keyword matching; `prioritize_missing_keywords` and
`calculate_keyword_coverage` never raise and are used concretely.  A `.error`
anywhere aborts the block with that error, exactly like a raised exception. -/
def analyze_steps (resume_emb job_emb : Except SemanticAnalysisError (List ℚ))
    (sim_metrics : List ℚ → List ℚ → Except SemanticAnalysisError SimInterp)
    (resume_kws job_kws : Except SemanticAnalysisError (List String))
    (match_fn : List String → List String →
      Except SemanticAnalysisError (List String × List String))
    (job_description : String) :
    Except SemanticAnalysisError CompatibilityAnalysis := do
  let resume_embedding ← resume_emb
  let job_embedding ← job_emb
  let metrics ← sim_metrics resume_embedding job_embedding
  let resume_keywords ← resume_kws
  let job_keywords ← job_kws
  let mm ← match_fn resume_keywords job_keywords
  let prioritized := prioritize_missing_keywords mm.2 job_description
  let coverage := calculate_keyword_coverage mm.1 job_keywords
  pure
    { match_score := metrics.percentage
      matched_keywords := mm.1
      missing_keywords := prioritized
      semantic_similarity := metrics.raw_similarity
      keyword_coverage := coverage }

/-- The `except Exception` clause of `analyze_compatibility`: every exception
escaping the `try` block — the components' typed `SemanticAnalysisError`
included — is replaced by a new `SemanticAnalysisError` whose message is
`"Compatibility analysis failed: " + str(e)`. -/
def wrap_analysis_error (r : Except SemanticAnalysisError CompatibilityAnalysis) :
    Except SemanticAnalysisError CompatibilityAnalysis :=
  match r with
  | .ok a => .ok a
  | .error e => .error ⟨"Compatibility analysis failed: " ++ e.msg⟩

/-- `SemanticService.analyze_compatibility`: the `try` block wrapped by the
`except` clause. -/
def analyze_compatibility (resume_emb job_emb : Except SemanticAnalysisError (List ℚ))
    (sim_metrics : List ℚ → List ℚ → Except SemanticAnalysisError SimInterp)
    (resume_kws job_kws : Except SemanticAnalysisError (List String))
    (match_fn : List String → List String →
      Except SemanticAnalysisError (List String × List String))
    (job_description : String) :
    Except SemanticAnalysisError CompatibilityAnalysis :=
  wrap_analysis_error
    (analyze_steps resume_emb job_emb sim_metrics resume_kws job_kws match_fn
      job_description)

/- ------------------------------------------------------------------ -/
/- Helper lemmas                                                       -/
/- ------------------------------------------------------------------ -/

/-- Inserting with `insertLe` permutes to consing. -/
theorem insertLe_perm {α : Type} (le : α → α → Bool) (x : α) (l : List α) :
    List.Perm (insertLe le x l) (x :: l) := by
  induction l with
  | nil => simp [insertLe]
  | cons y ys ih =>
    simp only [insertLe]
    split
    · exact List.Perm.refl _
    · exact (ih.cons y).trans (List.Perm.swap x y ys)

/-- `sortByB` permutes its input: the model of Python's `sorted` returns a
rearrangement of the list it is given. -/
theorem sortByB_perm {α : Type} (le : α → α → Bool) (l : List α) :
    List.Perm (sortByB le l) l := by
  induction l with
  | nil => exact List.Perm.refl _
  | cons x xs ih => exact (insertLe_perm le x (sortByB le xs)).trans (ih.cons x)

/-- Membership in a `sortByB` result. -/
theorem mem_sortByB {α : Type} (le : α → α → Bool) (l : List α) (x : α) :
    x ∈ sortByB le l ↔ x ∈ l :=
  (sortByB_perm le l).mem_iff

/-- Membership in `dedupFirst`: an element of the input not yet seen. -/
theorem mem_dedupFirst (l : List String) (x : String) :
    ∀ seen : List String, x ∈ dedupFirst l seen ↔ x ∈ l ∧ x ∉ seen := by
  induction l with
  | nil => intro seen; simp [dedupFirst]
  | cons w ws ih =>
    intro seen
    simp only [dedupFirst]
    by_cases hc : seen.contains w
    · rw [if_pos hc, ih]
      have hw : w ∈ seen := by
        simpa [List.contains_iff_exists_mem_beq, beq_iff_eq] using hc
      constructor
      · rintro ⟨h1, h2⟩; exact ⟨List.mem_cons_of_mem _ h1, h2⟩
      · rintro ⟨h1, h2⟩
        rcases List.mem_cons.mp h1 with rfl | h1
        · exact absurd hw h2
        · exact ⟨h1, h2⟩
    · rw [if_neg hc]
      have hw : w ∉ seen := by
        intro hmem
        exact hc (by simpa [List.contains_iff_exists_mem_beq, beq_iff_eq] using hmem)
      constructor
      · intro h
        rcases List.mem_cons.mp h with rfl | h
        · exact ⟨List.mem_cons_self _ _, hw⟩
        · rcases (ih (w :: seen)).mp h with ⟨h1, h2⟩
          refine ⟨List.mem_cons_of_mem _ h1, fun hs => h2 (List.mem_cons_of_mem _ hs)⟩
      · rintro ⟨h1, h2⟩
        rcases List.mem_cons.mp h1 with rfl | h1
        · exact List.mem_cons_self _ _
        · by_cases hxw : x = w
          · subst hxw; exact List.mem_cons_self _ _
          · exact List.mem_cons_of_mem _
              ((ih (w :: seen)).mpr ⟨h1, by simp [hxw, h2]⟩)

/-- The result of `dedupFirst` has no duplicates. -/
theorem nodup_dedupFirst (l : List String) :
    ∀ seen : List String, (dedupFirst l seen).Nodup := by
  induction l with
  | nil => intro seen; simp [dedupFirst]
  | cons w ws ih =>
    intro seen
    simp only [dedupFirst]
    split
    · exact ih seen
    · refine List.nodup_cons.mpr ⟨fun hmem => ?_, ih (w :: seen)⟩
      exact ((mem_dedupFirst ws w (w :: seen)).mp hmem).2 (List.mem_cons_self _ _)

/- ------------------------------------------------------------------ -/
/- C1: chunking termination                                            -/
/- ------------------------------------------------------------------ -/

/-- Once entered (on a text of more than 512 words), the chunking loop never
exits: the loop guard needs `start ≥ len(words)`, but after every iteration
`start = min(start + 512, len(words)) - 50 ≤ len(words) - 50 < len(words)`. -/
theorem chunk_text_loop_stuck (words : List String) :
    ∀ (fuel start : Nat) (chunks : List String), start < words.length →
      chunk_text_loop words fuel start chunks = none := by
  intro fuel
  induction fuel with
  | zero => intro start chunks _; rfl
  | succ n ih =>
    intro start chunks hs
    simp only [chunk_text_loop]
    rw [if_pos hs, if_neg (by omega)]
    exact ih _ _ (by omega)

/-- C1.  The claim is false of the code: `_chunk_text` does not terminate on
any input with more than 512 words (the `break` tests `start >= len(words)`
with `start = end - 50 ≤ len(words) - 50`, so it can never fire), hence it
returns no chunk sequence at all — in particular not the claimed 2 covering
chunks for a 1000-word text.  Formally: for every fuel bound, the loop is
still running. -/
theorem chunk_text_never_terminates (text : String) (fuel : Nat)
    (h : 512 < (pySplit text).length) : chunk_text fuel text = none := by
  unfold chunk_text
  rw [if_neg (by omega)]
  exact chunk_text_loop_stuck _ fuel 0 [] (by omega)

/-- A concrete 1000-word text (the word `w` repeated 1000 times). -/
def thousand_word_text : String :=
  String.mk (List.intercalate [' '] (List.replicate 1000 ['w']))

set_option maxRecDepth 40000 in
/-- Witness for `chunk_text_never_terminates`: the 1000-word text has more
than 512 words, and chunking it never returns (for a sample fuel bound of
100000 loop iterations). -/
theorem chunk_text_never_terminates_witness :
    512 < (pySplit thousand_word_text).length ∧
    chunk_text 100000 thousand_word_text = none :=
  ⟨by decide, chunk_text_never_terminates thousand_word_text 100000 (by decide)⟩

/- ------------------------------------------------------------------ -/
/- C2: orchestrator error propagation                                  -/
/- ------------------------------------------------------------------ -/

/-- Counterexample to C2 as stated: a typed component error — here the
embedding generator's `SemanticAnalysisError` — is NOT propagated unchanged
by `analyze_compatibility`; the `except Exception` clause re-raises a new
`SemanticAnalysisError` with the prefix `"Compatibility analysis failed: "`,
so the surfaced error differs from the component's. -/
theorem analyze_rewraps_component_error :
    analyze_compatibility (.error ⟨"Embedding generation failed: model missing"⟩)
        (.ok []) (fun _ _ => .ok ⟨0, "low", "poor", "", 0⟩) (.ok []) (.ok [])
        (fun _ _ => .ok ([], [])) "" =
      .error ⟨"Compatibility analysis failed: Embedding generation failed: model missing"⟩ ∧
    SemanticAnalysisError.mk
        "Compatibility analysis failed: Embedding generation failed: model missing" ≠
      SemanticAnalysisError.mk "Embedding generation failed: model missing" :=
  ⟨rfl, by decide⟩

/-- C2 (amended).  Every failure raised inside `analyze_compatibility` —
typed component errors included — is wrapped into a new
`SemanticAnalysisError` carrying the prefix `"Compatibility analysis
failed: "`; nothing passes through unwrapped.  On failure no partial
`CompatibilityAnalysis` is returned (the result is exactly the wrapped
error), and a returned result is exactly the fully assembled one of the
`try` block. -/
theorem analyze_compatibility_wraps_failures
    (resume_emb job_emb : Except SemanticAnalysisError (List ℚ))
    (sim_metrics : List ℚ → List ℚ → Except SemanticAnalysisError SimInterp)
    (resume_kws job_kws : Except SemanticAnalysisError (List String))
    (match_fn : List String → List String →
      Except SemanticAnalysisError (List String × List String))
    (job_description : String) :
    (∀ e, analyze_steps resume_emb job_emb sim_metrics resume_kws job_kws
        match_fn job_description = .error e →
      analyze_compatibility resume_emb job_emb sim_metrics resume_kws job_kws
        match_fn job_description =
        .error ⟨"Compatibility analysis failed: " ++ e.msg⟩) ∧
    (∀ a, analyze_steps resume_emb job_emb sim_metrics resume_kws job_kws
        match_fn job_description = .ok a →
      analyze_compatibility resume_emb job_emb sim_metrics resume_kws job_kws
        match_fn job_description = .ok a) := by
  constructor
  · intro e he
    unfold analyze_compatibility wrap_analysis_error
    rw [he]
  · intro a ha
    unfold analyze_compatibility wrap_analysis_error
    rw [ha]

/-- Witness for `analyze_compatibility_wraps_failures`: at a concrete failing
embedding, the orchestrator surfaces exactly the wrapped message. -/
theorem analyze_compatibility_wraps_failures_witness :
    analyze_compatibility (.error ⟨"Embedding generation failed: boom"⟩) (.ok [])
        (fun _ _ => .ok ⟨0, "low", "poor", "", 0⟩) (.ok []) (.ok [])
        (fun _ _ => .ok ([], [])) "" =
      .error ⟨"Compatibility analysis failed: " ++ "Embedding generation failed: boom"⟩ :=
  (analyze_compatibility_wraps_failures (.error ⟨"Embedding generation failed: boom"⟩)
      (.ok []) (fun _ _ => .ok ⟨0, "low", "poor", "", 0⟩) (.ok []) (.ok [])
      (fun _ _ => .ok ([], [])) "").1
    ⟨"Embedding generation failed: boom"⟩ rfl

/- ------------------------------------------------------------------ -/
/- C3: zero-norm normalization                                         -/
/- ------------------------------------------------------------------ -/

/-- Counterexample to C3 as stated: on an input whose embedding has zero
Euclidean norm, `generate_embedding` does not reject with an error — the
normalization at line 144 divides by the norm unconditionally and the
(vacuous) quotient is returned, cached, as a success. -/
theorem generate_embedding_zero_norm_not_rejected :
    sum_sq [0, 0, 0] = 0 ∧
    generate_embedding (fun _ => .ok [0, 0, 0]) [] 1 "hi" =
      some (.ok ([0, 0, 0], [("hi", [0, 0, 0])], true)) := by
  constructor
  · simp [sum_sq]
  · have hl : ([0, 0, 0] : List ℚ).map (fun x => x / norm_of [0, 0, 0]) = [0, 0, 0] := by
      simp
    calc
      generate_embedding (fun _ => .ok [0, 0, 0]) [] 1 "hi"
          = some (.ok (([0, 0, 0] : List ℚ).map (fun x => x / norm_of [0, 0, 0]),
              [("hi", ([0, 0, 0] : List ℚ).map (fun x => x / norm_of [0, 0, 0]))],
              true)) := rfl
      _ = some (.ok ([0, 0, 0], [("hi", [0, 0, 0])], true)) := by rw [hl]

/-- With a model whose encoding always succeeds, `encodeChunks` always
succeeds, returning the per-chunk encodings. -/
theorem encodeChunks_total (model : String → List ℚ) :
    ∀ chunks : List String,
      encodeChunks (fun s => .ok (model s)) chunks = .ok (chunks.map model) := by
  intro chunks
  induction chunks with
  | nil => rfl
  | cons c cs ih =>
    simp only [encodeChunks, ih]
    rfl

/-- C3 (amended).  `generate_embedding` has no zero-norm guard: whenever the
encoding model itself succeeds, the call (if it returns at all) returns a
success — for zero-norm embeddings included, the L2-normalization divides by
the norm unconditionally (a silent division by zero: `nan` components in
float semantics) instead of rejecting with an error. -/
theorem generate_embedding_never_rejects_zero_norm
    (model : String → List ℚ) (cache : EmbCache) (fuel : Nat) (text : String)
    (res : Except SemanticAnalysisError (List ℚ × EmbCache × Bool))
    (h : generate_embedding (fun s => .ok (model s)) cache fuel text = some res) :
    ∃ v c b, res = .ok (v, c, b) := by
  simp only [generate_embedding] at h
  cases hL : lookupCache cache (get_cache_key (preprocess_text text)) with
  | some w =>
    simp only [hL, Option.some.injEq] at h
    exact ⟨w, cache, false, h.symm⟩
  | none =>
    simp only [hL] at h
    cases hC : chunk_text fuel (preprocess_text text) with
    | none => simp [hC] at h
    | some chunks =>
      simp only [hC] at h
      by_cases h1 : chunks.length = 1
      · simp only [if_pos h1, Option.some.injEq] at h
        exact ⟨_, _, _, h.symm⟩
      · simp only [if_neg h1, encodeChunks_total] at h
        exact ⟨_, _, _, (Option.some.inj h).symm⟩

/-- Witness for `generate_embedding_never_rejects_zero_norm`: a model
returning the zero-norm empty vector; the call returns a success. -/
theorem generate_embedding_never_rejects_zero_norm_witness :
    generate_embedding (fun s => .ok ((fun _ : String => ([] : List ℚ)) s)) [] 1 "hi" =
      some (.ok ([], [("hi", [])], true)) ∧
    ∃ v c b, (Except.ok (([] : List ℚ), [("hi", ([] : List ℚ))], true) :
        Except SemanticAnalysisError (List ℚ × EmbCache × Bool)) = .ok (v, c, b) :=
  ⟨rfl, generate_embedding_never_rejects_zero_norm (fun _ => []) [] 1 "hi" _ rfl⟩

/- ------------------------------------------------------------------ -/
/- C4: similarity interpretation                                       -/
/- ------------------------------------------------------------------ -/

/-- The confidence tier as a function of `|s|` against the two thresholds. -/
theorem conf_spec (s : ℚ) :
    (get_confidence_level s = "high" ↔ 7/10 ≤ |s|) ∧
    (get_confidence_level s = "medium" ↔ 1/10 ≤ |s| ∧ |s| < 7/10) ∧
    (get_confidence_level s = "low" ↔ |s| < 1/10) := by
  unfold get_confidence_level
  split_ifs with h1 h2
  · exact ⟨⟨fun _ => h1, fun _ => rfl⟩,
      ⟨fun hc => absurd hc (by decide), fun hr => absurd h1 (not_le.mpr hr.2)⟩,
      ⟨fun hc => absurd hc (by decide),
       fun hr => absurd h1 (not_le.mpr (by linarith))⟩⟩
  · exact ⟨⟨fun hc => absurd hc (by decide), fun hr => absurd hr h1⟩,
      ⟨fun _ => ⟨h2, not_le.mp h1⟩, fun _ => rfl⟩,
      ⟨fun hc => absurd hc (by decide), fun hr => absurd h2 (not_le.mpr hr)⟩⟩
  · exact ⟨⟨fun hc => absurd hc (by decide), fun hr => absurd hr h1⟩,
      ⟨fun hc => absurd hc (by decide), fun hr => absurd hr.1 h2⟩,
      ⟨fun _ => not_le.mp h2, fun _ => rfl⟩⟩

/-- The fields of `interpret_similarity` that are copied straight through:
percentage, raw similarity, confidence. -/
theorem interpret_fields (s : ℚ) :
    (interpret_similarity s).percentage = normalize_to_percentage s ∧
    (interpret_similarity s).raw_similarity = s ∧
    (interpret_similarity s).confidence = get_confidence_level s := by
  unfold interpret_similarity
  dsimp only
  split_ifs <;> exact ⟨rfl, rfl, rfl⟩

/-- The quality tier as a function of the percentage against the four
thresholds. -/
theorem quality_iff (s : ℚ) :
    ((interpret_similarity s).match_quality = "excellent" ↔
      80 ≤ normalize_to_percentage s) ∧
    ((interpret_similarity s).match_quality = "good" ↔
      60 ≤ normalize_to_percentage s ∧ normalize_to_percentage s < 80) ∧
    ((interpret_similarity s).match_quality = "moderate" ↔
      40 ≤ normalize_to_percentage s ∧ normalize_to_percentage s < 60) ∧
    ((interpret_similarity s).match_quality = "weak" ↔
      20 ≤ normalize_to_percentage s ∧ normalize_to_percentage s < 40) ∧
    ((interpret_similarity s).match_quality = "poor" ↔
      normalize_to_percentage s < 20) := by
  unfold interpret_similarity
  dsimp only
  split_ifs with h1 h2 h3 h4 <;>
    refine ⟨?_, ?_, ?_, ?_, ?_⟩ <;> constructor <;> intro h <;>
      first
        | rfl
        | (simp at h; done)
        | linarith
        | (constructor <;> linarith)

/-- C4.  For every raw similarity `s`, `interpret_similarity` is a pure
function whose percentage is `clamp(((s + 1) / 2) * 100, 0, 100)`, whose
confidence tier is determined by `|s|` against the thresholds `0.7` and
`0.1`, and whose quality tier is determined by the percentage against the
thresholds `80 / 60 / 40 / 20`, exactly as claimed. -/
theorem interpret_similarity_spec (s : ℚ) :
    (interpret_similarity s).percentage = min (max ((s + 1) / 2 * 100) 0) 100 ∧
    (interpret_similarity s).raw_similarity = s ∧
    ((interpret_similarity s).confidence = "high" ↔ 7/10 ≤ |s|) ∧
    ((interpret_similarity s).confidence = "medium" ↔ 1/10 ≤ |s| ∧ |s| < 7/10) ∧
    ((interpret_similarity s).confidence = "low" ↔ |s| < 1/10) ∧
    ((interpret_similarity s).match_quality = "excellent" ↔
      80 ≤ (interpret_similarity s).percentage) ∧
    ((interpret_similarity s).match_quality = "good" ↔
      60 ≤ (interpret_similarity s).percentage ∧ (interpret_similarity s).percentage < 80) ∧
    ((interpret_similarity s).match_quality = "moderate" ↔
      40 ≤ (interpret_similarity s).percentage ∧ (interpret_similarity s).percentage < 60) ∧
    ((interpret_similarity s).match_quality = "weak" ↔
      20 ≤ (interpret_similarity s).percentage ∧ (interpret_similarity s).percentage < 40) ∧
    ((interpret_similarity s).match_quality = "poor" ↔
      (interpret_similarity s).percentage < 20) := by
  obtain ⟨hp, hr, hc⟩ := interpret_fields s
  obtain ⟨q1, q2, q3, q4, q5⟩ := quality_iff s
  obtain ⟨c1, c2, c3⟩ := conf_spec s
  rw [hp, hc]
  exact ⟨rfl, hr, c1, c2, c3, q1, q2, q3, q4, q5⟩

/- ------------------------------------------------------------------ -/
/- C8: keyword coverage                                                -/
/- ------------------------------------------------------------------ -/

/-- C8.  Keyword coverage is `100 * |matched| / |job keywords|` capped at
`100`, and exactly `0` (without any division error — the division branch is
never reached) when the job-keyword list is empty; `2` matched out of `4`
job keywords give `50`. -/
theorem calculate_keyword_coverage_spec :
    (∀ matched : List String, calculate_keyword_coverage matched [] = 0) ∧
    (∀ matched total : List String, total ≠ [] →
      calculate_keyword_coverage matched total =
        min (100 * (matched.length : ℚ) / (total.length : ℚ)) 100) ∧
    calculate_keyword_coverage ["a", "b"] ["a", "b", "c", "d"] = 50 := by
  refine ⟨fun matched => by simp [calculate_keyword_coverage], ?_, ?_⟩
  · intro matched total ht
    unfold calculate_keyword_coverage
    rw [if_neg (by simpa using ht)]
    congr 1
    ring
  · unfold calculate_keyword_coverage
    norm_num [min_def]

/-- Witness for `calculate_keyword_coverage_spec`: the formula evaluated at a
concrete non-empty job-keyword list. -/
theorem calculate_keyword_coverage_spec_witness :
    (["x"] : List String) ≠ [] ∧
    calculate_keyword_coverage [] ["x"] =
      min (100 * (([] : List String).length : ℚ) / (((["x"] : List String)).length : ℚ)) 100 :=
  ⟨by decide, calculate_keyword_coverage_spec.2.1 [] ["x"] (by decide)⟩

/- ------------------------------------------------------------------ -/
/- C10: prioritization is a permutation                                -/
/- ------------------------------------------------------------------ -/

/-- C10.  `prioritize_missing_keywords` never raises (it is a total
function), returns a permutation of its input — exactly the same keywords
with the same multiplicities, only reordered — and its `except` branch
(modelled by `prioritize_with none`, entered when frequency counting fails)
returns the original list unchanged. -/
theorem prioritize_missing_keywords_perm
    (missing_keywords : List String) (job_text : String) :
    List.Perm (prioritize_missing_keywords missing_keywords job_text)
      missing_keywords ∧
    prioritize_with none missing_keywords = missing_keywords :=
  ⟨sortByB_perm _ missing_keywords, rfl⟩

/- ------------------------------------------------------------------ -/
/- C5: keyword matching                                                -/
/- ------------------------------------------------------------------ -/

/-- Membership helper: `List.contains` agrees with `∈` for strings. -/
theorem strList_contains_iff (l : List String) (x : String) :
    l.contains x = true ↔ x ∈ l := by
  simp [List.contains_iff_exists_mem_beq, beq_iff_eq]

/-- The matched output of `match_keywords` enumerates the union of exact and
fuzzy matches. -/
theorem mem_match_matched (r j : List String) (jk : String) :
    jk ∈ (match_keywords r j).1 ↔
      jk ∈ exact_matches r j ∨ jk ∈ fuzzy_matches r j := by
  unfold match_keywords
  dsimp only
  rw [mem_sortByB, List.mem_append]

/-- C5.  On the spec's example, `match_keywords` returns matched
`["apis", "python"]` (so it contains both `"python"` and `"apis"`) and
missing `["docker"]`; and in general a job keyword with no exact match is
matched iff it is a substring of some resume keyword or vice versa and its
length exceeds 3 characters. -/
theorem match_keywords_spec :
    match_keywords ["python", "api"] ["python", "docker", "apis"] =
      (["apis", "python"], ["docker"]) ∧
    ∀ (resume_keywords job_keywords : List String) (jk : String),
      jk ∈ normalized_set job_keywords →
      jk ∉ exact_matches resume_keywords job_keywords →
      (jk ∈ (match_keywords resume_keywords job_keywords).1 ↔
        ((∃ rk ∈ normalized_set resume_keywords,
            strContains rk jk = true ∨ strContains jk rk = true) ∧
          3 < jk.length)) := by
  refine ⟨by decide, ?_⟩
  intro r j jk hjk hnex
  rw [mem_match_matched]
  unfold fuzzy_matches
  rw [List.mem_filter]
  constructor
  · rintro (hex | ⟨_, hp⟩)
    · exact absurd hex hnex
    · simp only [Bool.and_eq_true, List.any_eq_true, Bool.or_eq_true,
        decide_eq_true_eq] at hp
      exact ⟨hp.1.2, hp.2⟩
  · rintro ⟨⟨rk, hrk, hsub⟩, hlen⟩
    refine Or.inr ⟨hjk, ?_⟩
    simp only [Bool.and_eq_true, List.any_eq_true, Bool.or_eq_true,
      decide_eq_true_eq, Bool.not_eq_true']
    refine ⟨⟨?_, ⟨rk, hrk, hsub⟩⟩, hlen⟩
    cases hb : (exact_matches r j).contains jk with
    | false => rfl
    | true => exact absurd ((strList_contains_iff _ _).mp hb) hnex

/-- Witness for `match_keywords_spec`: the general fuzzy-matching rule
instantiated on the example's `"apis"`. -/
theorem match_keywords_spec_witness :
    "apis" ∈ normalized_set ["python", "docker", "apis"] ∧
    "apis" ∉ exact_matches ["python", "api"] ["python", "docker", "apis"] ∧
    ("apis" ∈ (match_keywords ["python", "api"] ["python", "docker", "apis"]).1 ↔
      ((∃ rk ∈ normalized_set ["python", "api"],
          strContains rk "apis" = true ∨ strContains "apis" rk = true) ∧
        3 < "apis".length)) :=
  ⟨by decide, by decide,
    match_keywords_spec.2 ["python", "api"] ["python", "docker", "apis"] "apis"
      (by decide) (by decide)⟩

/- ------------------------------------------------------------------ -/
/- C6: synonym expansion                                               -/
/- ------------------------------------------------------------------ -/

/-- Characterization of the inner `for canonical, synonyms in
synonym_mappings` loop: what one keyword adds, over an arbitrary table. -/
theorem mem_synFold (kw x : String) (m : List (String × List String)) :
    ∀ acc : List String,
      (x ∈ m.foldl (fun acc p =>
          if kw = p.1 then acc ++ p.2
          else if p.2.contains kw then acc ++ (p.1 :: p.2) else acc) acc ↔
        x ∈ acc ∨ ∃ p ∈ m,
          (kw = p.1 ∧ x ∈ p.2) ∨ (kw ≠ p.1 ∧ kw ∈ p.2 ∧ x ∈ groupElems p)) := by
  induction m with
  | nil => intro acc; simp
  | cons q qs ih =>
    intro acc
    simp only [List.foldl_cons]
    by_cases h1 : kw = q.1
    · rw [if_pos h1, ih]
      constructor
      · rintro (hmem | ⟨p, hp, hD⟩)
        · rcases List.mem_append.mp hmem with ha | hq2
          · exact Or.inl ha
          · exact Or.inr ⟨q, List.mem_cons_self _ _, Or.inl ⟨h1, hq2⟩⟩
        · exact Or.inr ⟨p, List.mem_cons_of_mem _ hp, hD⟩
      · rintro (ha | ⟨p, hp, hD⟩)
        · exact Or.inl (List.mem_append.mpr (Or.inl ha))
        · rcases List.mem_cons.mp hp with rfl | hp'
          · rcases hD with ⟨_, hx⟩ | ⟨hne, _, _⟩
            · exact Or.inl (List.mem_append.mpr (Or.inr hx))
            · exact absurd h1 hne
          · exact Or.inr ⟨p, hp', hD⟩
    · by_cases h2 : q.2.contains kw
      · have hkw : kw ∈ q.2 := (strList_contains_iff _ _).mp h2
        rw [if_neg h1, if_pos h2, ih]
        constructor
        · rintro (hmem | ⟨p, hp, hD⟩)
          · rcases List.mem_append.mp hmem with ha | hg
            · exact Or.inl ha
            · exact Or.inr ⟨q, List.mem_cons_self _ _, Or.inr ⟨h1, hkw, hg⟩⟩
          · exact Or.inr ⟨p, List.mem_cons_of_mem _ hp, hD⟩
        · rintro (ha | ⟨p, hp, hD⟩)
          · exact Or.inl (List.mem_append.mpr (Or.inl ha))
          · rcases List.mem_cons.mp hp with rfl | hp'
            · rcases hD with ⟨hk, _⟩ | ⟨_, _, hg⟩
              · exact absurd hk h1
              · exact Or.inl (List.mem_append.mpr (Or.inr hg))
            · exact Or.inr ⟨p, hp', hD⟩
      · have hkw : kw ∉ q.2 := fun hm => h2 ((strList_contains_iff _ _).mpr hm)
        rw [if_neg h1, if_neg h2, ih]
        constructor
        · rintro (ha | ⟨p, hp, hD⟩)
          · exact Or.inl ha
          · exact Or.inr ⟨p, List.mem_cons_of_mem _ hp, hD⟩
        · rintro (ha | ⟨p, hp, hD⟩)
          · exact Or.inl ha
          · rcases List.mem_cons.mp hp with rfl | hp'
            · rcases hD with ⟨hk, _⟩ | ⟨_, hk2, _⟩
              · exact absurd hk h1
              · exact absurd hk2 hkw
            · exact Or.inr ⟨p, hp', hD⟩

/-- Membership in `expandOne`: some table row is triggered by `kw` and
contributes `x` (canonical rows contribute their synonyms, synonym rows the
whole group). -/
theorem mem_expandOne (kw x : String) :
    x ∈ expandOne kw ↔
      ∃ p ∈ synonym_mappings,
        (kw = p.1 ∧ x ∈ p.2) ∨ (kw ≠ p.1 ∧ kw ∈ p.2 ∧ x ∈ groupElems p) := by
  unfold expandOne
  rw [mem_synFold]
  simp

/-- Membership in the accumulated additions of the outer loop of
`_expand_with_synonyms`. -/
theorem mem_addFold (x : String) (kws : List String) :
    ∀ acc : List String,
      x ∈ kws.foldl (fun acc kw => acc ++ expandOne kw) acc ↔
        x ∈ acc ∨ ∃ kw ∈ kws, x ∈ expandOne kw := by
  induction kws with
  | nil => intro acc; simp
  | cons k ks ih =>
    intro acc
    simp only [List.foldl_cons]
    rw [ih]
    constructor
    · rintro (hmem | ⟨kw, hkw, hx⟩)
      · rcases List.mem_append.mp hmem with ha | hk
        · exact Or.inl ha
        · exact Or.inr ⟨k, List.mem_cons_self _ _, hk⟩
      · exact Or.inr ⟨kw, List.mem_cons_of_mem _ hkw, hx⟩
    · rintro (ha | ⟨kw, hkw, hx⟩)
      · exact Or.inl (List.mem_append.mpr (Or.inl ha))
      · rcases List.mem_cons.mp hkw with rfl | hkw'
        · exact Or.inl (List.mem_append.mpr (Or.inr hx))
        · exact Or.inr ⟨kw, hkw', hx⟩

/-- Membership in `_expand_with_synonyms`'s result: an input keyword, or an
addition triggered by an input keyword. -/
theorem mem_expand (kws : List String) (x : String) :
    x ∈ expand_with_synonyms kws ↔ x ∈ kws ∨ ∃ kw ∈ kws, x ∈ expandOne kw := by
  unfold expand_with_synonyms
  rw [mem_dedupFirst]
  simp only [List.not_mem_nil, not_false_iff, and_true]
  rw [List.mem_append, mem_addFold]
  simp

/-- Everything `expandOne kw` adds lies in a synonym group containing `kw`
itself. -/
theorem expandOne_subset_group {kw x : String} (h : x ∈ expandOne kw) :
    ∃ p ∈ synonym_mappings, kw ∈ groupElems p ∧ x ∈ groupElems p := by
  rw [mem_expandOne] at h
  obtain ⟨p, hp, hcase⟩ := h
  rcases hcase with ⟨hk, hx⟩ | ⟨_, hk, hx⟩
  · exact ⟨p, hp, hk ▸ List.mem_cons_self _ _, List.mem_cons_of_mem _ hx⟩
  · exact ⟨p, hp, List.mem_cons_of_mem _ hk, hx⟩

/-- Table fact, checked by evaluation: the synonym groups of
`synonym_mappings` are pairwise disjoint (two rows sharing any element are
the same group). -/
theorem synonym_groups_disjoint :
    ∀ p ∈ synonym_mappings, ∀ q ∈ synonym_mappings, ∀ k ∈ groupElems p,
      k ∈ groupElems q → groupElems p = groupElems q := by decide

/-- Table fact, checked by evaluation: within any synonym group, expanding
any element reaches the whole group (up to the element itself). -/
theorem synonym_group_covered :
    ∀ p ∈ synonym_mappings, ∀ e ∈ groupElems p, ∀ x ∈ groupElems p,
      x = e ∨ x ∈ expandOne e := by decide

/-- C6.  Synonym expansion is symmetric on the `javascript`/`js` group and
idempotent: expanding an already-expanded keyword set adds nothing new
(equality as sets, i.e. of membership). -/
theorem expand_with_synonyms_spec :
    ("js" ∈ expand_with_synonyms ["javascript"] ∧
     "ecmascript" ∈ expand_with_synonyms ["javascript"] ∧
     "javascript" ∈ expand_with_synonyms ["js"] ∧
     "ecmascript" ∈ expand_with_synonyms ["js"]) ∧
    ∀ (keywords : List String) (x : String),
      x ∈ expand_with_synonyms (expand_with_synonyms keywords) ↔
        x ∈ expand_with_synonyms keywords := by
  refine ⟨⟨by decide, by decide, by decide, by decide⟩, ?_⟩
  intro S x
  constructor
  · intro h
    rw [mem_expand] at h
    rcases h with h | ⟨kw, hkw, hx⟩
    · exact h
    · rw [mem_expand] at hkw
      rcases hkw with hkw | ⟨kw', hkw', hkwE⟩
      · exact (mem_expand S x).mpr (Or.inr ⟨kw, hkw, hx⟩)
      · obtain ⟨q, hq, hkwq, hxq⟩ := expandOne_subset_group hx
        obtain ⟨p, hp, hkw'p, hkwp⟩ := expandOne_subset_group hkwE
        have hgeq := synonym_groups_disjoint p hp q hq kw hkwp hkwq
        have hxp : x ∈ groupElems p := by rw [hgeq]; exact hxq
        rcases synonym_group_covered p hp kw' hkw'p x hxp with rfl | hxE
        · exact (mem_expand S x).mpr (Or.inl hkw')
        · exact (mem_expand S x).mpr (Or.inr ⟨kw', hkw', hxE⟩)
  · intro h
    exact (mem_expand _ x).mpr (Or.inl h)

/- ------------------------------------------------------------------ -/
/- C7: extract_keywords length bounds and duplicate freedom            -/
/- ------------------------------------------------------------------ -/

/-- Table fact, checked by evaluation: every canonical keyword and synonym of
the table has length at least 2 (and also at most 50, though only the lower
bound survives to `extract_keywords` in general). -/
theorem synonym_group_len :
    ∀ p ∈ synonym_mappings, ∀ x ∈ groupElems p, 2 ≤ x.length := by decide

/-- Every candidate produced by `_extract_noun_phrases` — on either the spaCy
path or the fallback path — has length at least 2 (`min_keyword_length`). -/
theorem extract_noun_phrases_len (nlp : Option (String → SpacyDoc)) (text : String) :
    ∀ kw ∈ extract_noun_phrases nlp text, 2 ≤ kw.length := by
  intro kw hkw
  unfold extract_noun_phrases at hkw
  cases nlp with
  | none =>
    unfold fallback_keyword_extraction at hkw
    have h1 := List.take_subset 20 _ hkw
    have h2 := ((mem_dedupFirst _ _ _).mp h1).1
    have h3 := (List.mem_filter.mp h2).2
    simp only [Bool.and_eq_true, decide_eq_true_eq] at h3
    exact h3.1.2
  | some nlpF =>
    have h := ((mem_dedupFirst _ _ _).mp hkw).1
    rcases List.mem_append.mp h with h | htok
    · rcases List.mem_append.mp h with hch | hent
      · obtain ⟨ch, _, hf⟩ := List.mem_filterMap.mp hch
        dsimp only at hf
        split_ifs at hf with hcond
        simp only [Bool.and_eq_true, decide_eq_true_eq] at hcond
        obtain rfl := Option.some.inj hf
        exact hcond.1.1.1
      · obtain ⟨ent, _, hf⟩ := List.mem_filterMap.mp hent
        dsimp only at hf
        split_ifs at hf with hlab hcond
        simp only [Bool.and_eq_true, decide_eq_true_eq] at hcond
        obtain rfl := Option.some.inj hf
        exact hcond.1
    · obtain ⟨tok, _, hf⟩ := List.mem_filterMap.mp htok
      dsimp only at hf
      split_ifs at hf with hcond hlen
      obtain rfl := Option.some.inj hf
      exact hlen

/-- C7 (amended).  Every keyword returned by `extract_keywords` has length at
least 2 and the returned sequence has no duplicates.  (The claimed upper
bound of 50 does not hold in general: the individual-token branch of
`_extract_noun_phrases` checks only the lower bound — see the
counterexample.) -/
theorem extract_keywords_min_len_nodup (nlp : Option (String → SpacyDoc))
    (text : String) :
    (∀ kw ∈ extract_keywords nlp text, 2 ≤ kw.length) ∧
    (extract_keywords nlp text).Nodup := by
  constructor
  · intro kw hkw
    unfold extract_keywords at hkw
    rw [mem_sortByB, mem_expand] at hkw
    rcases hkw with h | ⟨kw', _, hE⟩
    · exact extract_noun_phrases_len nlp text kw h
    · obtain ⟨p, hp, _, hxg⟩ := expandOne_subset_group hE
      exact synonym_group_len p hp kw hxg
  · unfold extract_keywords
    rw [(sortByB_perm kwOrder _).nodup_iff]
    unfold expand_with_synonyms
    exact nodup_dedupFirst _ _

/-- Witness for `extract_keywords_min_len_nodup`: fallback extraction on a
concrete text. -/
theorem extract_keywords_min_len_nodup_witness :
    "hello" ∈ extract_keywords none "hello" ∧
    2 ≤ "hello".length ∧ (extract_keywords none "hello").Nodup :=
  ⟨by decide, (extract_keywords_min_len_nodup none "hello").1 "hello" (by decide),
    (extract_keywords_min_len_nodup none "hello").2⟩

/-- A 51-character word. -/
def long_token : String := String.mk (List.replicate 51 'a')

/-- A spaCy parse holding a single noun token of 51 characters (spaCy tokens
are substrings of the input, so any 51-character unbroken word produces
one). -/
def long_token_doc : SpacyDoc :=
  ⟨[], [], [⟨long_token, "NOUN", false, false⟩]⟩

/-- Counterexample to C7 as stated: the individual-token branch of
`_extract_noun_phrases` never checks `max_keyword_length`, so
`extract_keywords` can return a keyword of length 51 > 50. -/
theorem extract_keywords_exceeds_max_len :
    long_token ∈ extract_keywords (some fun _ => long_token_doc) "x" ∧
    50 < long_token.length := by
  exact ⟨by decide, by decide⟩

/- ------------------------------------------------------------------ -/
/- C9: caching and determinism of generate_embedding                   -/
/- ------------------------------------------------------------------ -/

/-- C9.  If a call to `generate_embedding` returns vector `v` leaving cache
`cache'`, then a subsequent call on any text with the same preprocessed form
hits the cache: it returns the very same vector `v`, leaves the cache
unchanged, and does not invoke the model (the `Bool` component is `false`).
In particular texts with equal preprocessed forms get equal embedding
vectors, keyed by the content hash of the preprocessed text. -/
theorem generate_embedding_cache_hit
    (model : String → Except SemanticAnalysisError (List ℚ)) (cache : EmbCache)
    (fuel : Nat) (t₁ t₂ : String) (v : List ℚ) (cache' : EmbCache) (b : Bool)
    (hpre : preprocess_text t₁ = preprocess_text t₂)
    (h : generate_embedding model cache fuel t₁ = some (.ok (v, cache', b))) :
    generate_embedding model cache' fuel t₂ = some (.ok (v, cache', false)) := by
  simp only [generate_embedding] at h ⊢
  rw [← hpre]
  cases hL : lookupCache cache (get_cache_key (preprocess_text t₁)) with
  | some w =>
    simp only [hL, Option.some.injEq, Except.ok.injEq, Prod.mk.injEq] at h
    obtain ⟨rfl, rfl, rfl⟩ := h
    rw [hL]
  | none =>
    simp only [hL] at h
    cases hC : chunk_text fuel (preprocess_text t₁) with
    | none => simp [hC] at h
    | some chunks =>
      simp only [hC] at h
      by_cases h1 : chunks.length = 1
      · rw [if_pos h1] at h
        cases hM : model (preprocess_text t₁) with
        | error e => rw [hM] at h; simp at h
        | ok emb =>
          rw [hM] at h
          simp only [Option.some.injEq, Except.ok.injEq, Prod.mk.injEq] at h
          obtain ⟨rfl, rfl, rfl⟩ := h
          simp [lookupCache, get_cache_key]
      · rw [if_neg h1] at h
        cases hEC : encodeChunks model chunks with
        | error e => rw [hEC] at h; simp at h
        | ok es =>
          rw [hEC] at h
          simp only [Option.some.injEq, Except.ok.injEq, Prod.mk.injEq] at h
          obtain ⟨rfl, rfl, rfl⟩ := h
          simp [lookupCache, get_cache_key]

/-- Witness for `generate_embedding_cache_hit`: two texts differing only in
case, whose preprocessed forms agree; the second call is a cache hit
returning the first call's vector without invoking the model. -/
theorem generate_embedding_cache_hit_witness :
    preprocess_text "Hi" = preprocess_text "hI" ∧
    generate_embedding (fun _ => .ok []) [] 1 "Hi" =
      some (.ok ([], [("hi", [])], true)) ∧
    generate_embedding (fun _ => .ok []) [("hi", [])] 1 "hI" =
      some (.ok ([], [("hi", [])], false)) :=
  ⟨by decide, rfl,
    generate_embedding_cache_hit (fun _ => .ok []) [] 1 "Hi" "hI" [] [("hi", [])]
      true (by decide) rfl⟩
